import Mathlib

/-!
Verification of the WAL restore pipeline of `pkg/management/barman/restorer/restorer.go`
(package `restorer` of the cloudnative-pg repository).

The Go code is shallowly embedded:

* The external fetch tool (`barman-cloud-wal-restore`, executed through
  `exec.Command` / `execlog.RunStreaming`) is modelled by an oracle
  `ExecOracle` that maps a fully-built invocation (command, argument
  vector, environment) to its outcome (`none` = exit code `0`,
  `some msg` = launch failure or non-zero exit).
* `time.Now()` is modelled by a per-worker-index oracle `Nat → Nat × Nat`
  giving the start and end instants of the worker's fetch.
* The structured log entries emitted through `contextLog` are collected
  as values of type `LogEntry`.
* `fmt.Errorf` wrapping and the sentinel errors are modelled by `GoError`.
* The `spool` package is not part of the sources; its operations used by
  the restorer (`MoveOut`, `FileName`) are modelled from the spec.
* The fan-out/fan-in concurrency of `RestoreList` (one goroutine per batch
  element plus a `sync.WaitGroup` barrier) is modelled twice: as the
  sequential function `RestoreList` (each worker's outcome depends only on
  the oracles, never on another worker), and as an explicit interleaving
  semantics (`runActions`) used to prove schedule independence.
-/

namespace Restorer

/-- Go `error` values produced by the code under verification:
an exec launch/exit failure carrying the subprocess message, an error
wrapped with `fmt.Errorf("...: %w", ...)`, the `spool.ErrorNonExistentFile`
sentinel, and any other filesystem failure. -/
inductive GoError where
  | execFailure (msg : String)
  | wrapped (pre : String) (cause : GoError)
  | errorNonExistentFile
  | fsFailure (msg : String)
deriving DecidableEq, Repr

/-- One execution of an external command: the command name, its argument
vector and the environment it runs with (`exec.Command` + `cmd.Env`). -/
structure Invocation where
  cmd : String
  args : List String
  env : List String
deriving DecidableEq, Repr

/-- Modelled from the spec: the external fetch tool is an opaque subprocess;
`exit code 0 = success; any other outcome = failure`.  The oracle assigns
to every possible invocation its outcome: `none` for exit code `0`,
`some msg` for a launch error or non-zero exit. -/
def ExecOracle : Type := Invocation → Option String

/-- Modelled from the spec: the identity of the external fetch tool
(`barmanCapabilities.BarmanCloudWalRestore`). -/
def barmanCloudWalRestore : String := "barman-cloud-wal-restore"

/-- `WALRestorer`: the cluster identity, the spool handle (its directory)
and the environment for subprocesses, as held by the Go struct. -/
structure WALRestorer where
  cluster : String
  spoolDirectory : String
  env : List String

/-- `Result`: the record filled by the restore process on completion.
Timestamps are abstract clock readings (`time.Now()` results). -/
structure Result where
  WalName : String
  DestinationPath : String
  Err : Option GoError
  StartTime : Nat
  EndTime : Nat
deriving DecidableEq, Repr

/-- Modelled from the spec: `Spool.pathFor` — a deterministic,
collision-free mapping from segment name to a spool-local path
(`spool.FileName`). -/
def FileName (spoolDirectory walName : String) : String :=
  spoolDirectory ++ "/" ++ walName

/-- Modelled from the spec: outcome of the spool claim for one
(segment, destination) pair: the entry existed and was atomically moved,
the entry did not exist, or some other filesystem failure occurred. -/
inductive MoveOutOutcome where
  | moved
  | nonExistent
  | fsError (msg : String)
deriving DecidableEq, Repr

/-- Modelled from the spec: `spool.MoveOut` returns `nil` when the entry
was moved, `spool.ErrorNonExistentFile` when no entry exists, and the
underlying error on any other filesystem failure. -/
def MoveOut (fs : String → String → MoveOutOutcome)
    (walName destinationPath : String) : Option GoError :=
  match fs walName destinationPath with
  | .moved => none
  | .nonExistent => some .errorNonExistentFile
  | .fsError msg => some (.fsFailure msg)

/-- `RestoreFromSpool` (restorer.go lines 79–91): switch on the `MoveOut`
error.  The second component of the returned pair is the list of fetch-tool
invocations performed, which is always empty here. -/
def RestoreFromSpool (fs : String → String → MoveOutOutcome)
    (walName destinationPath : String) :
    (Bool × Option GoError) × List Invocation :=
  match MoveOut fs walName destinationPath with
  | some .errorNonExistentFile => ((false, none), [])
  | some e => ((false, some e), [])
  | none => ((true, none), [])

/-- `Restore` (restorer.go lines 154–168): build
`options = baseOptions ++ [walName, destinationPath]`, run the fetch tool
once with the restorer's environment, and wrap any failure with
`"unexpected failure invoking <tool>"`.  Returns the invocations performed
(always exactly one) together with the returned error. -/
def Restore (env : List String) (exec : ExecOracle)
    (walName destinationPath : String) (baseOptions : List String) :
    List Invocation × Option GoError :=
  let options := baseOptions ++ [walName, destinationPath]
  let inv : Invocation := ⟨barmanCloudWalRestore, options, env⟩
  match exec inv with
  | none => ([inv], none)
  | some msg =>
      ([inv], some (.wrapped ("unexpected failure invoking " ++ barmanCloudWalRestore)
        (.execFailure msg)))

/-- The structured log entries emitted by `RestoreList` through
`contextLog`: the informational entry on success ("Restored WAL file" with
walName, startTime, endTime, elapsedWalTime) and the warning entry on
index-0 failure ("Failed restoring WAL" with walName, options, startTime,
endTime, elapsedWalTime, error).  `elapsedWalTime` is derived from the two
timestamps and is not a separate field here. -/
inductive LogEntry where
  | restoredInfo (walName : String) (startTime endTime : Nat)
  | restoreWarning (walName : String) (options : List String)
      (startTime endTime : Nat) (err : GoError)
deriving DecidableEq, Repr

/-- Outcome of one goroutine of `RestoreList`: the Result slot it fills,
the fetch-tool invocations it performs, and the log entries it emits. -/
structure WorkerOut where
  res : Result
  invs : List Invocation
  logs : List LogEntry
deriving Repr

/-- The destination chosen inside the goroutine: `destinationPath` for
index 0, the spool path otherwise (restorer.go lines 107–116). -/
def workerDest (r : WALRestorer) (destinationPath walName : String)
    (idx : Nat) : String :=
  if idx = 0 then destinationPath else FileName r.spoolDirectory walName

/-- The body of the goroutine spawned by `RestoreList` for index `idx`
(restorer.go lines 103–146): fill the Result slot, call `Restore`, and log
an informational entry on success or a warning entry on failure only when
`idx = 0`. -/
def worker (r : WALRestorer) (exec : ExecOracle) (times : Nat → Nat × Nat)
    (destinationPath : String) (options : List String)
    (idx : Nat) (walName : String) : WorkerOut :=
  let dest := workerDest r destinationPath walName idx
  let t := times idx
  let out := Restore r.env exec walName dest options
  let result : Result := ⟨walName, dest, out.2, t.1, t.2⟩
  let logs := match out.2 with
    | none => [LogEntry.restoredInfo walName t.1 t.2]
    | some e =>
        if idx = 0 then [LogEntry.restoreWarning walName options t.1 t.2 e] else []
  ⟨result, out.1, logs⟩

/-- `RestoreList` (restorer.go lines 95–151): pre-size the result list,
run one worker per batch element, wait for all of them, and return the
results in input order.  The invocations and log entries of all workers
are also collected (their cross-worker order is nondeterministic in the
Go code; here they are concatenated in index order, and the theorems about
them are stated per index or as membership facts). -/
def RestoreList (r : WALRestorer) (exec : ExecOracle) (times : Nat → Nat × Nat)
    (fetchList : List String) (destinationPath : String) (options : List String) :
    List Result × List Invocation × List LogEntry :=
  let outs := fetchList.enum.map fun iw =>
    worker r exec times destinationPath options iw.1 iw.2
  (outs.map WorkerOut.res, (outs.map WorkerOut.invs).flatten,
    (outs.map WorkerOut.logs).flatten)

/-- A Go slice header: backing-array identifier, offset, length, capacity. -/
structure GoSlice where
  arr : Nat
  off : Nat
  len : Nat
  cap : Nat
deriving DecidableEq, Repr

/-- The backing-array store: each allocated array identifier maps to the
full contents of its backing array (length = the array's capacity);
`next` is the next fresh identifier. -/
structure SliceHeap where
  store : Nat → List String
  next : Nat

/-- A slice header is valid in a heap when its array is allocated, its
window fits in the backing array, and length does not exceed capacity. -/
def SliceHeap.valid (h : SliceHeap) (s : GoSlice) : Prop :=
  s.arr < h.next ∧ s.off + s.cap ≤ (h.store s.arr).length ∧ s.len ≤ s.cap

/-- The elements visible through a slice header. -/
def readSlice (h : SliceHeap) (s : GoSlice) : List String :=
  ((h.store s.arr).drop s.off).take s.len

/-- Overwrite the segment of `a` starting at `off` with `xs`
(the in-bounds case of a Go element-wise write). -/
def writeSeg (a : List String) (off : Nat) (xs : List String) : List String :=
  a.take off ++ xs ++ a.drop (off + xs.length)

/-- Go `make([]string, len, cap)`: allocate a fresh zeroed backing array of
size `cap` and return the new header together with the updated heap. -/
def makeSlice (h : SliceHeap) (len cap : Nat) : GoSlice × SliceHeap :=
  (⟨h.next, 0, len, cap⟩,
    ⟨fun n => if n = h.next then List.replicate cap "" else h.store n, h.next + 1⟩)

/-- Go `copy(dst, src)`: copy `min dst.len src.len` elements into `dst`'s
backing array at `dst`'s offset. -/
def copySlice (h : SliceHeap) (dst src : GoSlice) : SliceHeap :=
  let n := min dst.len src.len
  let xs := ((h.store src.arr).drop src.off).take n
  ⟨fun m => if m = dst.arr then writeSeg (h.store dst.arr) dst.off xs else h.store m,
    h.next⟩

/-- Go `append(s, xs...)`: when the capacity suffices, write in place past
the current length (sharing the backing array); otherwise allocate a fresh
backing array holding the old elements followed by `xs`. -/
def appendSlice (h : SliceHeap) (s : GoSlice) (xs : List String) : GoSlice × SliceHeap :=
  if s.len + xs.length ≤ s.cap then
    (⟨s.arr, s.off, s.len + xs.length, s.cap⟩,
      ⟨fun m => if m = s.arr then writeSeg (h.store s.arr) (s.off + s.len) xs
        else h.store m, h.next⟩)
  else
    (⟨h.next, 0, s.len + xs.length, s.len + xs.length⟩,
      ⟨fun m => if m = h.next then readSlice h s ++ xs else h.store m, h.next + 1⟩)

/-- The slice manipulation at the top of `Restore` (restorer.go lines
155–157), at the Go memory level:
`options := make([]string, len(baseOptions), len(baseOptions)+2)`;
`copy(options, baseOptions)`;
`options = append(options, walName, destinationPath)`. -/
def restoreOptions (h : SliceHeap) (baseOptions : GoSlice)
    (walName destinationPath : String) : GoSlice × SliceHeap :=
  let mk := makeSlice h baseOptions.len (baseOptions.len + 2)
  let h2 := copySlice mk.2 mk.1 baseOptions
  appendSlice h2 mk.1 [walName, destinationPath]

/-- Parameters of one `RestoreList` call: the restorer, the oracles and
the arguments. -/
structure CallParams where
  r : WALRestorer
  exec : ExecOracle
  times : Nat → Nat × Nat
  fetchList : List String
  destinationPath : String
  options : List String

/-- The completed outcome of the worker of call `p` at index `i`
(schedule-independent: a function of the call's oracles and arguments
only).  Out-of-range indices use the padding value `""`; no such worker is
ever spawned. -/
def workerAt (p : CallParams) (i : Nat) : WorkerOut :=
  worker p.r p.exec p.times p.destinationPath p.options i (p.fetchList.getD i "")

/-- Shared state of the interleaving model for two concurrent
`RestoreList` calls `A` and `B`: each call's own pre-sized result
collection (a slot is `none` until its worker completes) and the local
filesystem, as a map from path to the segment name stored there. -/
structure ConcState where
  resA : List (Option Result)
  resB : List (Option Result)
  files : String → Option String

/-- An atomic action of the interleaving model: the completion of one
worker, identified by its call (`false` = call A, `true` = call B) and its
batch index. -/
abbrev Action : Type := Bool × Nat

/-- The filesystem after a worker completes: when its fetch succeeded, the
segment is deposited at the worker's destination path. -/
def deposit (s : ConcState) (w : WorkerOut) : String → Option String :=
  if w.res.Err = none then
    fun path => if path = w.res.DestinationPath then some w.res.WalName else s.files path
  else s.files

/-- Effect of one worker's completion on the shared state: write its own
Result slot in its own call's collection and, when the fetch succeeded,
deposit the segment at the worker's destination path.  Out-of-range
indices have no effect (no such worker is spawned). -/
def applyAction (pA pB : CallParams) (s : ConcState) (a : Action) : ConcState :=
  match a with
  | (false, i) =>
      if i < pA.fetchList.length then
        { s with resA := s.resA.set i (some (workerAt pA i).res),
                 files := deposit s (workerAt pA i) }
      else s
  | (true, j) =>
      if j < pB.fetchList.length then
        { s with resB := s.resB.set j (some (workerAt pB j).res),
                 files := deposit s (workerAt pB j) }
      else s

/-- Run a schedule (an arbitrary interleaving of worker completions). -/
def runActions (pA pB : CallParams) (s : ConcState) (sched : List Action) : ConcState :=
  sched.foldl (applyAction pA pB) s

/-- The initial state before fan-out: both result collections pre-sized
(`make([]Result, len(fetchList))`) and an arbitrary initial filesystem. -/
def initState (pA pB : CallParams) (fs0 : String → Option String) : ConcState :=
  ⟨List.replicate pA.fetchList.length none, List.replicate pB.fetchList.length none, fs0⟩

/-- The error `Restore` returns when the subprocess fails with `msg`. -/
def wrapErr (msg : String) : GoError :=
  .wrapped ("unexpected failure invoking " ++ barmanCloudWalRestore) (.execFailure msg)

/-- The invocation dispatched for batch index `i` with segment `w`. -/
def invFor (r : WALRestorer) (destinationPath : String) (options : List String)
    (i : Nat) (w : String) : Invocation :=
  ⟨barmanCloudWalRestore, options ++ [w, workerDest r destinationPath w i], r.env⟩

theorem Restore_invs (env : List String) (e : ExecOracle) (w d : String)
    (bo : List String) :
    (Restore env e w d bo).1 = [⟨barmanCloudWalRestore, bo ++ [w, d], env⟩] := by
  unfold Restore
  dsimp only
  cases e ⟨barmanCloudWalRestore, bo ++ [w, d], env⟩ <;> rfl

theorem Restore_err (env : List String) (e : ExecOracle) (w d : String)
    (bo : List String) :
    (Restore env e w d bo).2 =
      (e ⟨barmanCloudWalRestore, bo ++ [w, d], env⟩).map wrapErr := by
  unfold Restore wrapErr
  dsimp only
  cases e ⟨barmanCloudWalRestore, bo ++ [w, d], env⟩ <;> rfl

theorem worker_res (r : WALRestorer) (e : ExecOracle) (t : Nat → Nat × Nat)
    (d : String) (o : List String) (i : Nat) (w : String) :
    (worker r e t d o i w).res =
      ⟨w, workerDest r d w i, (e (invFor r d o i w)).map wrapErr,
        (t i).1, (t i).2⟩ := by
  unfold worker invFor
  dsimp only
  rw [Restore_err]

theorem worker_invs (r : WALRestorer) (e : ExecOracle) (t : Nat → Nat × Nat)
    (d : String) (o : List String) (i : Nat) (w : String) :
    (worker r e t d o i w).invs = [invFor r d o i w] := by
  unfold worker invFor
  dsimp only
  rw [Restore_invs]

theorem worker_logs_success (r : WALRestorer) (e : ExecOracle) (t : Nat → Nat × Nat)
    (d : String) (o : List String) (i : Nat) (w : String)
    (h : e (invFor r d o i w) = none) :
    (worker r e t d o i w).logs = [.restoredInfo w (t i).1 (t i).2] := by
  unfold worker
  dsimp only
  rw [Restore_err]
  rw [show (⟨barmanCloudWalRestore, o ++ [w, workerDest r d w i], r.env⟩ : Invocation)
    = invFor r d o i w from rfl, h]
  rfl

theorem worker_logs_failure (r : WALRestorer) (e : ExecOracle) (t : Nat → Nat × Nat)
    (d : String) (o : List String) (i : Nat) (w : String) (msg : String)
    (h : e (invFor r d o i w) = some msg) :
    (worker r e t d o i w).logs =
      if i = 0 then [.restoreWarning w o (t i).1 (t i).2 (wrapErr msg)] else [] := by
  unfold worker
  dsimp only
  rw [Restore_err]
  rw [show (⟨barmanCloudWalRestore, o ++ [w, workerDest r d w i], r.env⟩ : Invocation)
    = invFor r d o i w from rfl, h]
  rfl

theorem list_flatten_singletons {α β : Type} (l : List α) (f : α → β) :
    (l.map fun x => [f x]).flatten = l.map f := by
  induction l with
  | nil => rfl
  | cons a tl ih => simp [ih]

theorem RestoreList_results (r : WALRestorer) (e : ExecOracle) (t : Nat → Nat × Nat)
    (fl : List String) (d : String) (o : List String) :
    (RestoreList r e t fl d o).1 =
      fl.enum.map fun iw => (worker r e t d o iw.1 iw.2).res := by
  unfold RestoreList
  dsimp only
  rw [List.map_map]
  rfl

theorem RestoreList_results_length (r : WALRestorer) (e : ExecOracle)
    (t : Nat → Nat × Nat) (fl : List String) (d : String) (o : List String) :
    (RestoreList r e t fl d o).1.length = fl.length := by
  rw [RestoreList_results]
  simp

theorem RestoreList_results_get? (r : WALRestorer) (e : ExecOracle)
    (t : Nat → Nat × Nat) (fl : List String) (d : String) (o : List String)
    (i : Nat) :
    ((RestoreList r e t fl d o).1)[i]? =
      (fl[i]?).map fun w => (worker r e t d o i w).res := by
  rw [RestoreList_results, List.getElem?_map, List.getElem?_enum]
  cases fl[i]? <;> rfl

theorem RestoreList_invs (r : WALRestorer) (e : ExecOracle) (t : Nat → Nat × Nat)
    (fl : List String) (d : String) (o : List String) :
    (RestoreList r e t fl d o).2.1 =
      fl.enum.map fun iw => invFor r d o iw.1 iw.2 := by
  unfold RestoreList
  dsimp only
  rw [List.map_map]
  have : (WorkerOut.invs ∘ fun iw : Nat × String =>
      worker r e t d o iw.1 iw.2) = fun iw => [invFor r d o iw.1 iw.2] := by
    funext iw
    exact worker_invs r e t d o iw.1 iw.2
  rw [this, list_flatten_singletons fl.enum fun iw => invFor r d o iw.1 iw.2]

theorem RestoreList_invs_get? (r : WALRestorer) (e : ExecOracle)
    (t : Nat → Nat × Nat) (fl : List String) (d : String) (o : List String)
    (i : Nat) :
    ((RestoreList r e t fl d o).2.1)[i]? =
      (fl[i]?).map fun w => invFor r d o i w := by
  rw [RestoreList_invs, List.getElem?_map, List.getElem?_enum]
  cases fl[i]? <;> rfl

theorem RestoreList_logs (r : WALRestorer) (e : ExecOracle) (t : Nat → Nat × Nat)
    (fl : List String) (d : String) (o : List String) :
    (RestoreList r e t fl d o).2.2 =
      (fl.enum.map fun iw => (worker r e t d o iw.1 iw.2).logs).flatten := by
  unfold RestoreList
  dsimp only
  rw [List.map_map]
  rfl

/-- A concrete restorer used to instantiate the theorems below. -/
def testRestorer : WALRestorer :=
  ⟨"cluster-example", "/var/spool/wal", ["AWS_SHARED_CREDENTIALS_FILE=/creds"]⟩

/-- A concrete clock oracle. -/
def testTimes : Nat → Nat × Nat := fun i => (10 * i, 10 * i + 7)

/-- A concrete exec oracle: the fetch of segment "B" fails, every other
fetch succeeds. -/
def failB : ExecOracle :=
  fun inv => if inv.args.contains "B" then some "exit status 1" else none

/-- A concrete exec oracle: every fetch fails. -/
def failAll : ExecOracle := fun _ => some "exit status 1"

/-- C9: for an empty batch, `RestoreList` returns an empty Result slice
(`make([]Result, 0)`, non-nil by Go semantics), performs no fetch-tool
invocation and emits no log entry. -/
theorem restoreList_empty_batch (r : WALRestorer) (e : ExecOracle)
    (t : Nat → Nat × Nat) (d : String) (o : List String) :
    RestoreList r e t [] d o = ([], [], []) := rfl

/-- C6: `Restore` invokes the external fetch tool exactly once, with
argument vector `baseOptions ++ [walName, destinationPath]` (in that
order, nothing else) and the restorer's configured environment. -/
theorem restore_invokes_tool_once (env : List String) (e : ExecOracle)
    (walName destinationPath : String) (baseOptions : List String) :
    (Restore env e walName destinationPath baseOptions).1 =
      [⟨barmanCloudWalRestore, baseOptions ++ [walName, destinationPath], env⟩] :=
  Restore_invs env e walName destinationPath baseOptions

/-- C7: `Restore` returns `nil` exactly when the subprocess exits with
code 0; on any launch or non-zero-exit failure it returns an error that
wraps the underlying subprocess error and names the fetch tool; and the
tool is invoked exactly once (no retry at this layer). -/
theorem restore_error_contract (env : List String) (e : ExecOracle)
    (walName destinationPath : String) (baseOptions : List String) :
    ((Restore env e walName destinationPath baseOptions).2 = none ↔
      e ⟨barmanCloudWalRestore, baseOptions ++ [walName, destinationPath], env⟩ = none) ∧
    (∀ msg,
      e ⟨barmanCloudWalRestore, baseOptions ++ [walName, destinationPath], env⟩ = some msg →
      (Restore env e walName destinationPath baseOptions).2 =
        some (.wrapped ("unexpected failure invoking " ++ barmanCloudWalRestore)
          (.execFailure msg))) ∧
    (Restore env e walName destinationPath baseOptions).1.length = 1 := by
  refine ⟨?_, ?_, ?_⟩
  · rw [Restore_err]
    cases e ⟨barmanCloudWalRestore, baseOptions ++ [walName, destinationPath], env⟩ <;>
      simp [wrapErr]
  · intro msg hmsg
    rw [Restore_err, hmsg]
    rfl
  · rw [Restore_invs]
    rfl

/-- Witness for C7 at a concrete failing input. -/
theorem restore_error_contract_witness :
    (Restore ["E=1"] failAll "B" "/dest/B" ["--opt"]).2 =
      some (.wrapped ("unexpected failure invoking " ++ barmanCloudWalRestore)
        (.execFailure "exit status 1")) :=
  (restore_error_contract ["E=1"] failAll "B" "/dest/B" ["--opt"]).2.1
    "exit status 1" rfl

/-- C4: `RestoreFromSpool` returns exactly one of three outcomes as
determined by the spool claim: `(true, nil)` when the entry existed and
was moved, `(false, nil)` on a miss, `(false, err)` on any other
filesystem failure; it never invokes the external fetch tool (the
invocation list is empty — indeed the definition takes no exec oracle at
all). -/
theorem restoreFromSpool_tri_state (fs : String → String → MoveOutOutcome)
    (walName destinationPath : String) :
    (fs walName destinationPath = .moved →
      RestoreFromSpool fs walName destinationPath = ((true, none), [])) ∧
    (fs walName destinationPath = .nonExistent →
      RestoreFromSpool fs walName destinationPath = ((false, none), [])) ∧
    (∀ msg, fs walName destinationPath = .fsError msg →
      RestoreFromSpool fs walName destinationPath =
        ((false, some (.fsFailure msg)), [])) ∧
    (RestoreFromSpool fs walName destinationPath).2 = [] := by
  unfold RestoreFromSpool MoveOut
  refine ⟨fun h => by rw [h], fun h => by rw [h], fun msg h => by rw [h], ?_⟩
  cases fs walName destinationPath <;> rfl

/-- Witness for C4 at concrete inputs covering the miss case. -/
theorem restoreFromSpool_tri_state_witness :
    RestoreFromSpool (fun _ _ => .nonExistent) "A" "/dest/A" = ((false, none), []) :=
  (restoreFromSpool_tri_state (fun _ _ => .nonExistent) "A" "/dest/A").2.1 rfl

/-- C2: in `RestoreList`, the fetch for index 0 is dispatched with
destination exactly `destinationPath`, the fetch for every index `i ≥ 1`
with destination `spool.FileName batch[i]`, and the chosen destination is
recorded in `Result[i].DestinationPath`. -/
theorem restoreList_destinations (r : WALRestorer) (e : ExecOracle)
    (t : Nat → Nat × Nat) (fl : List String) (d : String) (o : List String)
    (i : Nat) (hi : i < fl.length) :
    ((RestoreList r e t fl d o).2.1)[i]? =
      some ⟨barmanCloudWalRestore,
        o ++ [fl[i], if i = 0 then d else FileName r.spoolDirectory fl[i]], r.env⟩ ∧
    ∃ res, ((RestoreList r e t fl d o).1)[i]? = some res ∧
      res.DestinationPath =
        (if i = 0 then d else FileName r.spoolDirectory fl[i]) := by
  have hfl : fl[i]? = some fl[i] := List.getElem?_eq_getElem hi
  constructor
  · rw [RestoreList_invs_get?, hfl]
    rfl
  · refine ⟨(worker r e t d o i fl[i]).res, ?_, ?_⟩
    · rw [RestoreList_results_get?, hfl]
      rfl
    · rw [worker_res]
      rfl

/-- Witness for C2 at a concrete speculative index. -/
theorem restoreList_destinations_witness :
    ((RestoreList testRestorer failB testTimes ["A", "B"] "/pg_wal/A" ["--opt"]).2.1)[1]? =
      some ⟨barmanCloudWalRestore,
        ["--opt"] ++ ["B", if 1 = 0 then "/pg_wal/A"
          else FileName testRestorer.spoolDirectory "B"],
        testRestorer.env⟩ :=
  (restoreList_destinations testRestorer failB testTimes ["A", "B"] "/pg_wal/A"
    ["--opt"] 1 (by decide)).1

/-- C1: a fetch failure at a speculative index `i ≥ 1` is recorded only in
that index's own `Result.Err` slot.  `RestoreList` has no error return at
all (its only output is the result list), it never aborts early (the
returned list always has full length), and every other index's Result is
a function of its own fetch outcome only: under any two oracles agreeing
on all invocations except index `i`'s, all other slots are identical. -/
theorem restoreList_speculative_isolation (r : WALRestorer) (e₁ e₂ : ExecOracle)
    (t : Nat → Nat × Nat) (fl : List String) (d : String) (o : List String)
    (i : Nat) (_h1 : 1 ≤ i) (hi : i < fl.length)
    (hagree : ∀ j, ∀ hj : j < fl.length, j ≠ i →
      e₁ (invFor r d o j fl[j]) = e₂ (invFor r d o j fl[j])) :
    (RestoreList r e₁ t fl d o).1.length = fl.length ∧
    (∀ j, j ≠ i →
      ((RestoreList r e₁ t fl d o).1)[j]? = ((RestoreList r e₂ t fl d o).1)[j]?) ∧
    ∃ res, ((RestoreList r e₁ t fl d o).1)[i]? = some res ∧
      res.WalName = fl[i] ∧
      res.Err = (e₁ (invFor r d o i fl[i])).map wrapErr := by
  refine ⟨RestoreList_results_length r e₁ t fl d o, ?_, ?_⟩
  · intro j hj
    rw [RestoreList_results_get?, RestoreList_results_get?]
    by_cases hjl : j < fl.length
    · rw [List.getElem?_eq_getElem hjl, Option.map_some', Option.map_some',
        worker_res, worker_res, hagree j hjl hj]
    · rw [List.getElem?_eq_none (Nat.le_of_not_lt hjl)]
      rfl
  · refine ⟨(worker r e₁ t d o i fl[i]).res, ?_, ?_, ?_⟩
    · rw [RestoreList_results_get?, List.getElem?_eq_getElem hi]
      rfl
    · rw [worker_res]
    · rw [worker_res]

/-- Witness for C1 at a concrete input where the speculative fetch of
segment "B" (index 1) fails. -/
theorem restoreList_speculative_isolation_witness :
    ∃ res, ((RestoreList testRestorer failB testTimes ["A", "B"] "/pg_wal/A"
      ["--opt"]).1)[1]? = some res ∧
      res.WalName = "B" ∧
      res.Err = (failB (invFor testRestorer "/pg_wal/A" ["--opt"] 1 "B")).map wrapErr :=
  (restoreList_speculative_isolation testRestorer failB failB testTimes
    ["A", "B"] "/pg_wal/A" ["--opt"] 1 (by decide) (by decide)
    (fun _ _ _ => rfl)).2.2

/-- C5: the log entries of `RestoreList` are exactly the concatenation of
the per-worker entries; a warning entry is present iff the index-0 fetch
failed, and it then carries the segment name, the options, the start/end
times and the error; every successful fetch contributes an informational
entry; a failing fetch at an index `i ≥ 1` contributes no entry at all. -/
theorem restoreList_logging (r : WALRestorer) (e : ExecOracle)
    (t : Nat → Nat × Nat) (fl : List String) (d : String) (o : List String) :
    ((RestoreList r e t fl d o).2.2 =
      (fl.enum.map fun iw => (worker r e t d o iw.1 iw.2).logs).flatten) ∧
    (∀ w os t0 t1 er,
      LogEntry.restoreWarning w os t0 t1 er ∈ (RestoreList r e t fl d o).2.2 ↔
        ∃ h0 : 0 < fl.length, w = fl[0] ∧ os = o ∧ t0 = (t 0).1 ∧ t1 = (t 0).2 ∧
          (e (invFor r d o 0 fl[0])).map wrapErr = some er) ∧
    (∀ i, ∀ hi : i < fl.length, e (invFor r d o i fl[i]) = none →
      LogEntry.restoredInfo fl[i] (t i).1 (t i).2 ∈ (RestoreList r e t fl d o).2.2) ∧
    (∀ i, ∀ hi : i < fl.length, 1 ≤ i → e (invFor r d o i fl[i]) ≠ none →
      (worker r e t d o i fl[i]).logs = []) := by
  refine ⟨RestoreList_logs r e t fl d o, ?_, ?_, ?_⟩
  · intro w os t0 t1 er
    rw [RestoreList_logs, List.mem_flatten]
    constructor
    · rintro ⟨ls, hls, hmem⟩
      rw [List.mem_map] at hls
      obtain ⟨iw, hiw, rfl⟩ := hls
      rcases hcase : e (invFor r d o iw.1 iw.2) with _ | msg
      · rw [worker_logs_success r e t d o iw.1 iw.2 hcase] at hmem
        simp at hmem
      · rw [worker_logs_failure r e t d o iw.1 iw.2 msg hcase] at hmem
        by_cases h0 : iw.1 = 0
        · rw [if_pos h0] at hmem
          simp only [List.mem_singleton, LogEntry.restoreWarning.injEq] at hmem
          obtain ⟨hw, hos, ht0, ht1, her⟩ := hmem
          have hiw' : (iw.1, iw.2) ∈ fl.enum := hiw
          rw [List.mk_mem_enum_iff_getElem?] at hiw'
          rw [h0] at hiw' hcase ht0 ht1
          have hlen : 0 < fl.length := by
            cases fl with
            | nil => simp at hiw'
            | cons a tl => simp
          have hfl0 : fl[0] = iw.2 := by
            rw [List.getElem?_eq_getElem hlen] at hiw'
            exact Option.some_injective _ hiw'
          refine ⟨hlen, ?_, hos, ht0, ht1, ?_⟩
          · rw [hw, hfl0]
          · rw [hfl0, hcase, her]
            rfl
        · rw [if_neg h0] at hmem
          simp at hmem
    · rintro ⟨h0, hw, hos, ht0, ht1, her⟩
      rcases hcase : e (invFor r d o 0 fl[0]) with _ | msg
      · rw [hcase] at her
        simp at her
      · rw [hcase] at her
        refine ⟨(worker r e t d o 0 fl[0]).logs, ?_, ?_⟩
        · rw [List.mem_map]
          exact ⟨(0, fl[0]), by
            rw [List.mk_mem_enum_iff_getElem?, List.getElem?_eq_getElem h0], rfl⟩
        · rw [worker_logs_failure r e t d o 0 fl[0] msg hcase, if_pos rfl]
          have herr : wrapErr msg = er := Option.some_injective _ her
          rw [hw, hos, ht0, ht1, ← herr]
          exact List.mem_singleton.mpr rfl
  · intro i hi hsucc
    rw [RestoreList_logs, List.mem_flatten]
    refine ⟨(worker r e t d o i fl[i]).logs, ?_, ?_⟩
    · rw [List.mem_map]
      exact ⟨(i, fl[i]), by
        rw [List.mk_mem_enum_iff_getElem?, List.getElem?_eq_getElem hi], rfl⟩
    · rw [worker_logs_success r e t d o i fl[i] hsucc]
      exact List.mem_singleton.mpr rfl
  · intro i hi h1 hfail
    rcases hcase : e (invFor r d o i fl[i]) with _ | msg
    · exact absurd hcase hfail
    · rw [worker_logs_failure r e t d o i fl[i] msg hcase,
        if_neg (by omega)]

/-- Witness for C5: with the oracle failing exactly segment "B", the batch
["B","A"] produces a warning for the demanded segment "B", while the same
failure at speculative index 1 of the batch ["A","B"] produces no entry. -/
theorem restoreList_logging_witness :
    (LogEntry.restoreWarning "B" ["--opt"] 0 7 (wrapErr "exit status 1") ∈
      (RestoreList testRestorer failB testTimes ["B", "A"] "/pg_wal/B"
        ["--opt"]).2.2) ∧
    (worker testRestorer failB testTimes "/pg_wal/A" ["--opt"] 1 "B").logs = [] := by
  constructor
  · exact ((restoreList_logging testRestorer failB testTimes ["B", "A"] "/pg_wal/B"
      ["--opt"]).2.1 "B" ["--opt"] 0 7 (wrapErr "exit status 1")).mpr
      ⟨by decide, by decide, rfl, by decide, by decide, by decide⟩
  · exact (restoreList_logging testRestorer failB testTimes ["A", "B"] "/pg_wal/A"
      ["--opt"]).2.2.2 1 (by decide) (by decide) (by decide)

/-- C10: `Restore` never mutates the caller's `baseOptions` slice.  The
`make`/`copy`/`append` sequence writes only to the freshly allocated
backing array: the whole backing array of `baseOptions` is untouched, the
elements seen through `baseOptions` are unchanged, and the new `options`
slice reads back as `baseOptions ++ [walName, destinationPath]` (the
latter also justifies the value-level `Restore` definition above). -/
theorem restore_preserves_baseOptions (h : SliceHeap) (bo : GoSlice)
    (walName destinationPath : String) (hv : h.valid bo) :
    ((restoreOptions h bo walName destinationPath).2).store bo.arr =
      h.store bo.arr ∧
    readSlice (restoreOptions h bo walName destinationPath).2 bo =
      readSlice h bo ∧
    readSlice (restoreOptions h bo walName destinationPath).2
        (restoreOptions h bo walName destinationPath).1 =
      readSlice h bo ++ [walName, destinationPath] := by
  obtain ⟨harr, hfit, hlc⟩ := hv
  have hne : bo.arr ≠ h.next := Nat.ne_of_lt harr
  have happ : bo.len + ([walName, destinationPath] : List String).length
      ≤ bo.len + 2 := by simp
  have store_eq :
      ((restoreOptions h bo walName destinationPath).2).store bo.arr =
        h.store bo.arr := by
    unfold restoreOptions makeSlice copySlice appendSlice
    dsimp only
    rw [if_pos happ]
    dsimp only
    rw [if_neg hne, if_neg hne, if_neg hne]
  have hxs :
      (((h.store bo.arr).drop bo.off).take (min bo.len bo.len)) = readSlice h bo := by
    rw [Nat.min_self]
    rfl
  have hxs_len : (readSlice h bo).length = bo.len := by
    unfold readSlice
    rw [List.length_take, List.length_drop]
    omega
  refine ⟨store_eq, by rw [readSlice, store_eq]; rfl, ?_⟩
  unfold restoreOptions makeSlice copySlice appendSlice
  dsimp only
  rw [if_pos happ]
  dsimp only
  rw [readSlice]
  dsimp only
  rw [if_pos rfl, if_pos rfl, if_neg hne, if_pos rfl, hxs]
  unfold writeSeg
  have hlen2 : ([walName, destinationPath] : List String).length = 2 := rfl
  rw [List.take_zero, List.drop_replicate, List.nil_append, List.drop_zero]
  simp only [Nat.zero_add, hlen2, hxs_len]
  rw [List.take_left' hxs_len]
  have hdrop :
      ((readSlice h bo ++ List.replicate (bo.len + 2 - bo.len) "").drop
        (bo.len + 2)) = [] := by
    apply List.drop_eq_nil_of_le
    rw [List.length_append, List.length_replicate, hxs_len]
    omega
  rw [hdrop, List.append_nil]
  apply List.take_of_length_le
  rw [List.length_append, hxs_len, hlen2]

/-- A concrete heap holding one two-element backing array. -/
def testHeap : SliceHeap :=
  ⟨fun n => if n = 0 then ["--cloud-provider", "aws-s3"] else [], 1⟩

/-- The slice view of the whole test backing array. -/
def testBaseOptions : GoSlice := ⟨0, 0, 2, 2⟩

/-- Witness for C10 at a concrete heap and slice. -/
theorem restore_preserves_baseOptions_witness :
    readSlice (restoreOptions testHeap testBaseOptions "A" "/pg_wal/A").2
        testBaseOptions = ["--cloud-provider", "aws-s3"] ∧
    readSlice (restoreOptions testHeap testBaseOptions "A" "/pg_wal/A").2
        (restoreOptions testHeap testBaseOptions "A" "/pg_wal/A").1 =
      ["--cloud-provider", "aws-s3", "A", "/pg_wal/A"] := by
  have hv : testHeap.valid testBaseOptions :=
    ⟨by decide, by decide, by decide⟩
  have hmain := restore_preserves_baseOptions testHeap testBaseOptions
    "A" "/pg_wal/A" hv
  exact ⟨by rw [hmain.2.1]; decide, by rw [hmain.2.2]; decide⟩

theorem workerAt_eq (p : CallParams) (i : Nat) (hi : i < p.fetchList.length) :
    workerAt p i =
      worker p.r p.exec p.times p.destinationPath p.options i p.fetchList[i] := by
  unfold workerAt
  rw [List.getD_eq_getElem p.fetchList "" hi]

theorem applyAction_resA_length (pA pB : CallParams) (s : ConcState) (a : Action) :
    (applyAction pA pB s a).resA.length = s.resA.length := by
  obtain ⟨c, j⟩ := a
  cases c <;> (simp only [applyAction]; split <;> simp [List.length_set])

theorem applyAction_resB_length (pA pB : CallParams) (s : ConcState) (a : Action) :
    (applyAction pA pB s a).resB.length = s.resB.length := by
  obtain ⟨c, j⟩ := a
  cases c <;> (simp only [applyAction]; split <;> simp [List.length_set])

theorem applyAction_resA_other (pA pB : CallParams) (s : ConcState) (a : Action)
    (i : Nat) (hne : a ≠ (false, i)) :
    ((applyAction pA pB s a).resA)[i]? = s.resA[i]? := by
  obtain ⟨c, j⟩ := a
  cases c
  · have hji : j ≠ i := fun h => hne (by rw [h])
    simp only [applyAction]
    split
    · exact List.getElem?_set_ne hji
    · rfl
  · simp only [applyAction]
    split <;> rfl

theorem applyAction_resB_other (pA pB : CallParams) (s : ConcState) (a : Action)
    (j : Nat) (hne : a ≠ (true, j)) :
    ((applyAction pA pB s a).resB)[j]? = s.resB[j]? := by
  obtain ⟨c, i⟩ := a
  cases c
  · simp only [applyAction]
    split <;> rfl
  · have hij : i ≠ j := fun h => hne (by rw [h])
    simp only [applyAction]
    split
    · exact List.getElem?_set_ne hij
    · rfl

theorem applyAction_resA_self (pA pB : CallParams) (s : ConcState) (i : Nat)
    (hi : i < pA.fetchList.length) (hlen : s.resA.length = pA.fetchList.length) :
    ((applyAction pA pB s (false, i)).resA)[i]? = some (some (workerAt pA i).res) := by
  simp only [applyAction]
  rw [if_pos hi]
  exact List.getElem?_set_self (by rw [hlen]; exact hi)

theorem applyAction_resB_self (pA pB : CallParams) (s : ConcState) (j : Nat)
    (hj : j < pB.fetchList.length) (hlen : s.resB.length = pB.fetchList.length) :
    ((applyAction pA pB s (true, j)).resB)[j]? = some (some (workerAt pB j).res) := by
  simp only [applyAction]
  rw [if_pos hj]
  exact List.getElem?_set_self (by rw [hlen]; exact hj)

theorem runActions_resA (pA pB : CallParams) (sched : List Action) (s : ConcState)
    (i : Nat) (hi : i < pA.fetchList.length)
    (hlen : s.resA.length = pA.fetchList.length) :
    ((runActions pA pB s sched).resA)[i]? =
      if ((false, i) : Action) ∈ sched then some (some (workerAt pA i).res)
      else s.resA[i]? := by
  induction sched generalizing s with
  | nil => simp [runActions]
  | cons a tl ih =>
      have hstep : runActions pA pB s (a :: tl) =
          runActions pA pB (applyAction pA pB s a) tl := rfl
      have hlen' : (applyAction pA pB s a).resA.length = pA.fetchList.length := by
        rw [applyAction_resA_length, hlen]
      rw [hstep, ih (applyAction pA pB s a) hlen']
      by_cases hmem : ((false, i) : Action) ∈ tl
      · rw [if_pos hmem, if_pos (List.mem_cons_of_mem a hmem)]
      · rw [if_neg hmem]
        by_cases ha : a = ((false, i) : Action)
        · rw [if_pos (by rw [ha]; exact List.mem_cons_self _ _), ha]
          exact applyAction_resA_self pA pB s i hi hlen
        · rw [if_neg (by
            intro hc
            rcases List.mem_cons.mp hc with h | h
            · exact ha h.symm
            · exact hmem h)]
          exact applyAction_resA_other pA pB s a i ha

theorem runActions_resB (pA pB : CallParams) (sched : List Action) (s : ConcState)
    (j : Nat) (hj : j < pB.fetchList.length)
    (hlen : s.resB.length = pB.fetchList.length) :
    ((runActions pA pB s sched).resB)[j]? =
      if ((true, j) : Action) ∈ sched then some (some (workerAt pB j).res)
      else s.resB[j]? := by
  induction sched generalizing s with
  | nil => simp [runActions]
  | cons a tl ih =>
      have hstep : runActions pA pB s (a :: tl) =
          runActions pA pB (applyAction pA pB s a) tl := rfl
      have hlen' : (applyAction pA pB s a).resB.length = pB.fetchList.length := by
        rw [applyAction_resB_length, hlen]
      rw [hstep, ih (applyAction pA pB s a) hlen']
      by_cases hmem : ((true, j) : Action) ∈ tl
      · rw [if_pos hmem, if_pos (List.mem_cons_of_mem a hmem)]
      · rw [if_neg hmem]
        by_cases ha : a = ((true, j) : Action)
        · rw [if_pos (by rw [ha]; exact List.mem_cons_self _ _), ha]
          exact applyAction_resB_self pA pB s j hj hlen
        · rw [if_neg (by
            intro hc
            rcases List.mem_cons.mp hc with h | h
            · exact ha h.symm
            · exact hmem h)]
          exact applyAction_resB_other pA pB s a j ha

/-- The spool path mapping is collision-free: distinct segment names give
distinct spool paths under the same spool directory. -/
theorem FileName_injective (dir w1 w2 : String)
    (h : FileName dir w1 = FileName dir w2) : w1 = w2 := by
  unfold FileName at h
  have hd := congrArg String.data h
  simp only [String.data_append] at hd
  exact String.ext (List.append_cancel_left hd)

/-- The call an action belongs to. -/
def callOf (pA pB : CallParams) : Action → CallParams
  | (false, _) => pA
  | (true, _) => pB

/-- The action deposits a file at `path`: its worker exists, its fetch
succeeded, and its destination is `path`. -/
def writes (pA pB : CallParams) (a : Action) (path : String) : Prop :=
  a.2 < (callOf pA pB a).fetchList.length ∧
  (workerAt (callOf pA pB a) a.2).res.Err = none ∧
  (workerAt (callOf pA pB a) a.2).res.DestinationPath = path

theorem applyAction_files_no_write (pA pB : CallParams) (s : ConcState)
    (a : Action) (path : String) (hw : ¬ writes pA pB a path) :
    (applyAction pA pB s a).files path = s.files path := by
  obtain ⟨c, j⟩ := a
  cases c <;>
    (simp only [applyAction]
     split
     case isFalse => rfl
     case isTrue hrange =>
       unfold deposit
       split
       case isFalse => rfl
       case isTrue herr =>
         dsimp only
         split
         case isFalse => rfl
         case isTrue hpath =>
           exact absurd ⟨hrange, herr, hpath.symm⟩ hw)

theorem applyAction_files_write (pA pB : CallParams) (s : ConcState)
    (a : Action) (path : String) (hw : writes pA pB a path) :
    (applyAction pA pB s a).files path =
      some (workerAt (callOf pA pB a) a.2).res.WalName := by
  obtain ⟨c, j⟩ := a
  obtain ⟨hrange, herr, hdest⟩ := hw
  cases c <;>
    (simp only [applyAction]
     simp only [callOf] at hrange herr hdest ⊢
     rw [if_pos hrange]
     unfold deposit
     rw [if_pos herr]
     dsimp only
     rw [if_pos hdest.symm])

theorem runActions_files_stable (pA pB : CallParams) (path v : String) :
    ∀ (sched : List Action) (s : ConcState), s.files path = some v →
    (∀ a ∈ sched, writes pA pB a path →
      (workerAt (callOf pA pB a) a.2).res.WalName = v) →
    (runActions pA pB s sched).files path = some v := by
  intro sched
  induction sched with
  | nil => intro s hs _; exact hs
  | cons a tl ih =>
      intro s hs hval
      have hstep : runActions pA pB s (a :: tl) =
          runActions pA pB (applyAction pA pB s a) tl := rfl
      rw [hstep]
      refine ih (applyAction pA pB s a) ?_
        (fun b hb hwb => hval b (List.mem_cons_of_mem a hb) hwb)
      by_cases hw : writes pA pB a path
      · rw [applyAction_files_write pA pB s a path hw,
          hval a (List.mem_cons_self a tl) hw]
      · rw [applyAction_files_no_write pA pB s a path hw]
        exact hs

theorem runActions_files_last_write (pA pB : CallParams) (sched : List Action)
    (s : ConcState) (path : String) (a0 : Action)
    (hmem : a0 ∈ sched) (hw : writes pA pB a0 path)
    (huniq : ∀ b ∈ sched, writes pA pB b path →
      (workerAt (callOf pA pB b) b.2).res.WalName =
        (workerAt (callOf pA pB a0) a0.2).res.WalName) :
    (runActions pA pB s sched).files path =
      some (workerAt (callOf pA pB a0) a0.2).res.WalName := by
  obtain ⟨l1, l2, rfl⟩ := List.append_of_mem hmem
  have hrun : runActions pA pB s (l1 ++ a0 :: l2) =
      runActions pA pB (applyAction pA pB (runActions pA pB s l1) a0) l2 := by
    unfold runActions
    rw [List.foldl_append]
    rfl
  rw [hrun]
  refine runActions_files_stable pA pB path _ l2 _ ?_ ?_
  · rw [applyAction_files_write pA pB _ a0 path hw]
  · intro b hb hwb
    exact huniq b (List.mem_append_right l1 (List.mem_cons_of_mem a0 hb)) hwb

/-- C3: `RestoreList` returns exactly `N` Results, positionally aligned
with the input batch (`Result[i].WalName = batch[i]`), and only after
every dispatched per-segment unit has completed: under every complete
schedule of the interleaving model, every slot of the call's collection is
filled and equal to the value `RestoreList` returns for that slot. -/
theorem restoreList_returns_all_ordered (pA pB : CallParams)
    (sched : List Action) (fs0 : String → Option String)
    (hcomp : ∀ i, i < pA.fetchList.length → ((false, i) : Action) ∈ sched) :
    (RestoreList pA.r pA.exec pA.times pA.fetchList pA.destinationPath
      pA.options).1.length = pA.fetchList.length ∧
    (∀ i, ∀ hi : i < pA.fetchList.length, ∃ res,
      ((RestoreList pA.r pA.exec pA.times pA.fetchList pA.destinationPath
        pA.options).1)[i]? = some res ∧ res.WalName = pA.fetchList[i]) ∧
    (∀ i, i < pA.fetchList.length →
      ((runActions pA pB (initState pA pB fs0) sched).resA)[i]? =
        some (((RestoreList pA.r pA.exec pA.times pA.fetchList pA.destinationPath
          pA.options).1)[i]?)) := by
  refine ⟨RestoreList_results_length _ _ _ _ _ _, ?_, ?_⟩
  · intro i hi
    refine ⟨(worker pA.r pA.exec pA.times pA.destinationPath pA.options i
      pA.fetchList[i]).res, ?_, ?_⟩
    · rw [RestoreList_results_get?, List.getElem?_eq_getElem hi]
      rfl
    · rw [worker_res]
  · intro i hi
    rw [runActions_resA pA pB sched (initState pA pB fs0) i hi (by
      simp [initState])]
    rw [if_pos (hcomp i hi), RestoreList_results_get?,
      List.getElem?_eq_getElem hi, Option.map_some', workerAt_eq pA i hi]

/-- A concrete first `RestoreList` call. -/
def callA : CallParams :=
  ⟨testRestorer, failB, testTimes, ["A", "B"], "/pg_wal/A", ["--opt"]⟩

/-- A concrete second `RestoreList` call with disjoint segment names. -/
def callB : CallParams :=
  ⟨testRestorer, failB, testTimes, ["C", "D"], "/pg_wal/C", ["--opt"]⟩

/-- A concrete complete interleaving of the two calls' workers. -/
def testSched : List Action := [(true, 0), (false, 0), (true, 1), (false, 1)]

/-- Witness for C3 at a concrete pair of calls and schedule. -/
theorem restoreList_returns_all_ordered_witness :
    ((runActions callA callB (initState callA callB fun _ => none)
      testSched).resA)[0]? =
      some (((RestoreList callA.r callA.exec callA.times callA.fetchList
        callA.destinationPath callA.options).1)[0]?) :=
  (restoreList_returns_all_ordered callA callB testSched (fun _ => none)
    (by decide)).2.2 0 (by decide)

/-- C8: two concurrent `RestoreList` calls with disjoint write footprints
(disjoint segment names give distinct spool paths by `FileName_injective`;
the demanded destinations lie outside the spool) never corrupt each
other's Result collections or spool entries: under every complete
schedule, each call's collection equals its own sequential `RestoreList`
results, and each successfully prefetched segment of a call sits at that
call's spool path for it. -/
theorem concurrent_restoreList_no_corruption (pA pB : CallParams)
    (sched : List Action) (fs0 : String → Option String)
    (hcompA : ∀ i, i < pA.fetchList.length → ((false, i) : Action) ∈ sched)
    (hcompB : ∀ j, j < pB.fetchList.length → ((true, j) : Action) ∈ sched)
    (hAB : ∀ i, i < pA.fetchList.length → ∀ j, j < pB.fetchList.length →
      (workerAt pA i).res.DestinationPath ≠ (workerAt pB j).res.DestinationPath)
    (hAA : ∀ i, i < pA.fetchList.length → ∀ j, j < pA.fetchList.length → i ≠ j →
      (workerAt pA i).res.DestinationPath ≠ (workerAt pA j).res.DestinationPath) :
    (∀ i, i < pA.fetchList.length →
      ((runActions pA pB (initState pA pB fs0) sched).resA)[i]? =
        some (((RestoreList pA.r pA.exec pA.times pA.fetchList pA.destinationPath
          pA.options).1)[i]?)) ∧
    (∀ j, j < pB.fetchList.length →
      ((runActions pA pB (initState pA pB fs0) sched).resB)[j]? =
        some (((RestoreList pB.r pB.exec pB.times pB.fetchList pB.destinationPath
          pB.options).1)[j]?)) ∧
    (∀ i, ∀ hi : i < pA.fetchList.length, 1 ≤ i →
      (workerAt pA i).res.Err = none →
      (runActions pA pB (initState pA pB fs0) sched).files
        (FileName pA.r.spoolDirectory pA.fetchList[i]) = some pA.fetchList[i]) := by
  refine ⟨?_, ?_, ?_⟩
  · intro i hi
    rw [runActions_resA pA pB sched (initState pA pB fs0) i hi (by
      simp [initState])]
    rw [if_pos (hcompA i hi), RestoreList_results_get?,
      List.getElem?_eq_getElem hi, Option.map_some', workerAt_eq pA i hi]
  · intro j hj
    rw [runActions_resB pA pB sched (initState pA pB fs0) j hj (by
      simp [initState])]
    rw [if_pos (hcompB j hj), RestoreList_results_get?,
      List.getElem?_eq_getElem hj, Option.map_some', workerAt_eq pB j hj]
  · intro i hi h1 herr
    have hdest : (workerAt pA i).res.DestinationPath =
        FileName pA.r.spoolDirectory pA.fetchList[i] := by
      rw [workerAt_eq pA i hi, worker_res]
      unfold workerDest
      rw [if_neg (by omega)]
    have hname : (workerAt pA i).res.WalName = pA.fetchList[i] := by
      rw [workerAt_eq pA i hi, worker_res]
    have hw : writes pA pB ((false, i) : Action)
        (FileName pA.r.spoolDirectory pA.fetchList[i]) := ⟨hi, herr, hdest⟩
    have huniq : ∀ b ∈ sched,
        writes pA pB b (FileName pA.r.spoolDirectory pA.fetchList[i]) →
        (workerAt (callOf pA pB b) b.2).res.WalName =
          (workerAt (callOf pA pB ((false, i) : Action))
            ((false, i) : Action).2).res.WalName := by
      intro b hb hwb
      obtain ⟨c, j⟩ := b
      cases c
      · simp only [callOf] at hwb ⊢
        obtain ⟨hjl, hjerr, hjdest⟩ := hwb
        by_cases hji : j = i
        · subst hji
          rfl
        · exact absurd (hjdest.trans hdest.symm) (hAA j hjl i hi hji)
      · simp only [callOf] at hwb ⊢
        obtain ⟨hjl, hjerr, hjdest⟩ := hwb
        exact absurd (hjdest.trans hdest.symm).symm (hAB i hi j hjl)
    rw [runActions_files_last_write pA pB sched (initState pA pB fs0)
      (FileName pA.r.spoolDirectory pA.fetchList[i]) ((false, i) : Action)
      (hcompA i hi) hw huniq]
    exact congrArg some hname

/-- Witness for C8: both concrete calls run under a concrete interleaving;
call B's collection matches its sequential results, and call B's
successfully prefetched segment "D" sits at its spool path. -/
theorem concurrent_restoreList_no_corruption_witness :
    ((runActions callB callA (initState callB callA fun _ => none)
      testSched).resB)[0]? =
      some (((RestoreList callA.r callA.exec callA.times callA.fetchList
        callA.destinationPath callA.options).1)[0]?) ∧
    (runActions callB callA (initState callB callA fun _ => none)
      testSched).files (FileName callB.r.spoolDirectory "D") = some "D" := by
  have h := concurrent_restoreList_no_corruption callB callA testSched
    (fun _ => none) (by decide) (by decide) (by decide) (by decide)
  exact ⟨h.2.1 0 (by decide), h.2.2 1 (by decide) (by decide) (by decide)⟩

end Restorer
